import Mathlib

/-!
Verification of the reactive/view-state core of the ily GUI toolkit.

This file gives a shallow embedding, in Lean 4, of the parts of the
repository that the checked claims speak about:

* the weak-callback emitter of crates/ily-core/src/reactive/callback.rs
  (a BTreeMap from callback pointers to weak callbacks, emitted by taking
  the whole map out and iterating the snapshot in reverse key order);
* the Signal / ReadSignal / OwnedSignal layer of
  crates/ori-core/src/reactive/signal.rs (the underlying Resource slot is
  not part of the sources, so it is modelled from the specification);
* the ViewState dirty-flag record of crates/ori-core/src/view/state.rs and
  the context wrappers of crates/ori-core/src/contexts.rs;
* the Pod draw pass of crates/ori-core/src/pod/pod.rs over a tree of
  nodes, and the prepare/propagate lifecycle pass of the specification;
* the Option and Result view combinators of
  crates/ori-core/src/view/view.rs.

Callback identities (the raw pointers used as BTreeMap keys in the source)
are modelled as natural numbers: distinct live callbacks have distinct
pointers, and the BTreeMap orders its entries by pointer value, which the
model renders as a strictly sorted list of keys.  The liveness of a
callback (its strong count being positive) is a boolean predicate on keys,
and the behaviour a callback performs when invoked (it may subscribe or
unsubscribe callbacks on the same emitter) is a function from keys to
lists of emitter operations.
-/

namespace Ily

/-! ## Callback emitter (crates/ily-core/src/reactive/callback.rs)

The emitter state is the key set of the BTreeMap, kept as a strictly
increasing list of callback pointers.  The weak callback stored under a
key is recovered from the key itself: aliveness by the predicate
handed to emission, behaviour by the behaviour table. -/

/-- Operation a callback may perform on the emitter while it is being
invoked: subscribing a (new or old) callback, or unsubscribing one.
These model reentrant calls to CallbackEmitter::subscribe_weak and
CallbackEmitter::unsubscribe made from inside a callback body. -/
inductive EmitterOp where
  | sub (key : Nat)
  | unsub (key : Nat)
deriving DecidableEq, Repr

/-- Insertion into the BTreeMap key list, keeping the keys strictly
increasing; inserting an existing key overwrites the entry, which on the
key set is the identity (CallbackEmitter::subscribe_weak). -/
def insertKey (k : Nat) : List Nat → List Nat
  | [] => [k]
  | x :: xs =>
    if k < x then k :: x :: xs
    else if k = x then x :: xs
    else x :: insertKey k xs

/-- Removal from the BTreeMap key list (CallbackEmitter::unsubscribe). -/
def removeKey (k : Nat) : List Nat → List Nat
  | [] => []
  | x :: xs => if k = x then xs else x :: removeKey k xs

/-- Apply one reentrant emitter operation to the current registration
set. -/
def applyOp (m : List Nat) : EmitterOp → List Nat
  | .sub k => insertKey k m
  | .unsub k => removeKey k m

/-- Apply a list of reentrant emitter operations in order. -/
def applyOps (m : List Nat) (ops : List EmitterOp) : List Nat :=
  ops.foldl applyOp m

/-- Invocation loop of CallbackEmitter::emit.  The first argument is the
taken snapshot already brought into iteration order (reverse key order);
the second is the live registration set of the emitter, which starts
empty because mem::take replaced the map.  Each entry is upgraded: if the
callback is still alive it is invoked, which runs its reentrant
operations against the live set; a dead entry is skipped silently.
Returns the invocation order and the final registration set. -/
def emitLoop (alive : Nat → Bool) (beh : Nat → List EmitterOp) :
    List Nat → List Nat → List Nat × List Nat
  | [], m => ([], m)
  | k :: rest, m =>
    if alive k then
      let m1 := applyOps m (beh k)
      let r := emitLoop alive beh rest m1
      (k :: r.1, r.2)
    else
      emitLoop alive beh rest m

/-- CallbackEmitter::emit: take the whole map out (leaving the emitter
empty), then iterate the snapshot values in reverse key order, invoking
each entry that upgrades.  Returns the invocation order and the
registration set the emitter holds afterwards. -/
def emit (alive : Nat → Bool) (beh : Nat → List EmitterOp) (m : List Nat) :
    List Nat × List Nat :=
  emitLoop alive beh m.reverse []

/-- External operation performed between emissions: subscribing a
callback, unsubscribing one, and dropping the last strong owner of one
(the drop itself does not touch the map; it only makes the weak entry
dead, which the aliveness predicate accounts for). -/
def subscribeAll (m : List Nat) (keys : List Nat) : List Nat :=
  keys.foldl (fun acc k => insertKey k acc) m

/-- External subscribe/unsubscribe operations applied before an emission,
as in the claim about sequences of subscribe and unsubscribe calls.
Reuses EmitterOp, since the external calls hit the same two methods. -/
def buildMap (ops : List EmitterOp) : List Nat :=
  applyOps [] ops

/-! ## Signal layer (crates/ori-core/src/reactive/signal.rs)

A ReadSignal holds two Resource handles: one for the value, one for the
CallbackEmitter the signal notifies.  The Resource slot itself
(crates/ori-core resource module) is not among the sources, so the slot
is modelled from the specification: a generation-checked cell whose get
returns None once disposed and whose set hands the value back once
disposed.  Both slots of one signal are disposed together by the Drop
implementation of OwnedSignal.

The model keeps, for one signal, the stored value (None once the value
resource is disposed), the resource id used in the panic diagnostic of
get, the liveness of the emitter resource, and a ghost log of emissions:
each entry records the content of the value slot at the moment the
emitter was notified, which makes the write-before-notify order
observable. -/

/-- State of one signal: its value slot, the diagnostic id of the value
resource, the liveness of its emitter slot, and the emission log. -/
structure SignalState (α : Type) where
  value : Option α
  resourceId : Nat
  emitterAlive : Bool
  emitLog : List (Option α)
deriving Repr, DecidableEq

/-- Panic outcomes of the panicking convenience methods.  The payload of
getOnDropped is the resource id printed by the panic message of
ReadSignal::get_untracked; Signal::set panics without naming the id. -/
inductive SignalPanic where
  | getOnDropped (id : Nat)
  | setOnDropped
deriving DecidableEq, Repr

namespace SignalState

/-- ReadSignal::try_get, which reads the value resource; Modelled from
the spec: Resource::get returns a clone of the value, or None if the
slot has been disposed. -/
def tryGet {α : Type} (s : SignalState α) : Option α :=
  s.value

/-- ReadSignal::get_untracked: try_get, panicking on None with a message
naming the resource id. -/
def getUntracked {α : Type} (s : SignalState α) : Except SignalPanic α :=
  match s.tryGet with
  | some v => .ok v
  | none => .error (.getOnDropped s.resourceId)

/-- ReadSignal::get: track (a no-op for the claims considered here, since
no effect scope is modelled) followed by get_untracked. -/
def get {α : Type} (s : SignalState α) : Except SignalPanic α :=
  s.getUntracked

/-- Signal::try_set_untracked, writing the value slot; Modelled from the
spec: Resource::set replaces the stored value and fails, returning the
value back, if the slot was disposed. -/
def trySetUntracked {α : Type} (s : SignalState α) (v : α) :
    Except α (SignalState α) :=
  match s.value with
  | some _ => .ok { s with value := some v }
  | none => .error v

/-- Signal::emit: if the emitter resource is still alive, notify the
emitter (clear_and_emit); the log records the value slot content at
notification time. -/
def signalEmit {α : Type} (s : SignalState α) : SignalState α :=
  if s.emitterAlive then { s with emitLog := s.emitLog ++ [s.value] } else s

/-- Signal::try_set: try_set_untracked, then emit, then Ok. -/
def trySet {α : Type} (s : SignalState α) (v : α) :
    Except α (SignalState α) :=
  match s.trySetUntracked v with
  | .ok s1 => .ok s1.signalEmit
  | .error v => .error v

/-- Signal::set: try_set, panicking when the slot was disposed. -/
def set {α : Type} (s : SignalState α) (v : α) :
    Except SignalPanic (SignalState α) :=
  match s.trySet v with
  | .ok s1 => .ok s1
  | .error _ => .error .setOnDropped

/-- Drop for OwnedSignal: disposes the value resource and the emitter
resource.  The resource id survives disposal (it is what the diagnostic
prints). -/
def ownedDrop {α : Type} (s : SignalState α) : SignalState α :=
  { s with value := none, emitterAlive := false }

end SignalState

/-! ## ViewState (crates/ori-core/src/view/state.rs)

The Update bitset has the two bits LAYOUT and DRAW; it is modelled as a
record of two booleans.  The non-boolean layout fields of ViewState
(flex, size, transform, depth, cursor) carry f32 data in the source; the
embedded code never computes with them (the claims only copy them and
reset them to their defaults), so scalars are represented by integers. -/

/-- Update bitset: LAYOUT and DRAW. -/
structure Update where
  layout : Bool
  draw : Bool
deriving DecidableEq, Repr

namespace Update

/-- Empty bitset (Update::default). -/
def none : Update := ⟨false, false⟩

/-- Bitwise or of two bitsets (the BitOr the source uses in
request_layout and propagate). -/
def union (a b : Update) : Update := ⟨a.layout || b.layout, a.draw || b.draw⟩

/-- Remove the LAYOUT bit (update.remove(Update::LAYOUT)). -/
def removeLayout (u : Update) : Update := ⟨false, u.draw⟩

/-- Remove the DRAW bit (update.remove(Update::DRAW)). -/
def removeDraw (u : Update) : Update := ⟨u.layout, false⟩

end Update

/-- Size of a view (crates/ori-core layout Size; f32 pair, represented
by integers since no arithmetic on it is embedded). -/
structure Size where
  width : Int
  height : Int
deriving DecidableEq, Repr

/-- Size::ZERO. -/
def Size.zero : Size := ⟨0, 0⟩

/-- Affine transform (2x2 matrix plus translation; f32 entries
represented by integers, no arithmetic on them is embedded). -/
structure Affine where
  m00 : Int
  m01 : Int
  m10 : Int
  m11 : Int
  tx : Int
  ty : Int
deriving DecidableEq, Repr

/-- Affine::IDENTITY. -/
def Affine.identity : Affine := ⟨1, 0, 0, 1, 0, 0⟩

/-- Mouse cursor icon (crates/ori-core window Cursor); only its Default
value matters to the embedded code. -/
inductive Cursor where
  | defaultIcon
  | pointer
  | text
deriving DecidableEq, Repr

/-- State associated with a View. -/
structure ViewState where
  hot : Bool
  focused : Bool
  active : Bool
  has_active : Bool
  update : Update
  flex : Int
  size : Size
  transform : Affine
  depth : Int
  cursor : Cursor
deriving DecidableEq, Repr

namespace ViewState

/-- Default for ViewState: all interaction flags false, both update bits
set, zero size, identity transform. -/
def defaultState : ViewState :=
  { hot := false
    focused := false
    active := false
    has_active := false
    update := ⟨true, true⟩
    flex := 0
    size := Size.zero
    transform := Affine.identity
    depth := 0
    cursor := .defaultIcon }

/-- ViewState::prepare: reset the aggregate to the node's own active
flag. -/
def prepare (s : ViewState) : ViewState :=
  { s with has_active := s.active }

/-- ViewState::propagate: absorb the child's has_active and update bits
into the parent by or. -/
def propagate (s child : ViewState) : ViewState :=
  { s with
    has_active := s.has_active || child.has_active
    update := s.update.union child.update }

/-- ViewState::set_hot.  The Rust function returns the unit value; the
second component of the pair is that return value. -/
def set_hot (s : ViewState) (hot : Bool) : ViewState × Unit :=
  ({ s with hot := hot }, ())

/-- ViewState::set_focused. -/
def set_focused (s : ViewState) (focused : Bool) : ViewState × Unit :=
  ({ s with focused := focused }, ())

/-- ViewState::set_active.  Also writes has_active; returns unit, like
the Rust function. -/
def set_active (s : ViewState) (active : Bool) : ViewState × Unit :=
  ({ s with active := active, has_active := active }, ())

/-- ViewState::has_active accessor. -/
def hasActive (s : ViewState) : Bool :=
  s.has_active

/-- ViewState::request_layout: set LAYOUT and DRAW. -/
def request_layout (s : ViewState) : ViewState :=
  { s with update := s.update.union ⟨true, true⟩ }

/-- ViewState::request_draw: set DRAW only. -/
def request_draw (s : ViewState) : ViewState :=
  { s with update := s.update.union ⟨false, true⟩ }

/-- ViewState::layed_out: clear LAYOUT. -/
def layed_out (s : ViewState) : ViewState :=
  { s with update := s.update.removeLayout }

/-- ViewState::drawn: clear DRAW. -/
def drawn (s : ViewState) : ViewState :=
  { s with update := s.update.removeDraw }

end ViewState

/-! ## Context wrappers (crates/ori-core/src/contexts.rs)

The event/layout/draw/rebuild contexts expose set_hot and set_active
methods that compare before delegating to ViewState and return whether
the stored value changed. -/

namespace Cx

/-- Context set_hot: compute whether the hot state changes, delegate to
ViewState::set_hot, return the change indicator. -/
def set_hot (s : ViewState) (hot : Bool) : ViewState × Bool :=
  let updated := s.hot != hot
  ((ViewState.set_hot s hot).1, updated)

/-- Context set_active: compute whether the active state changes,
delegate to ViewState::set_active, return the change indicator. -/
def set_active (s : ViewState) (active : Bool) : ViewState × Bool :=
  let updated := s.active != active
  ((ViewState.set_active s active).1, updated)

end Cx

/-! ## Pod tree and passes (crates/ori-core/src/pod/pod.rs)

A view tree of Pod-wrapped nodes.  Every node carries the persistent
ViewState its Pod owns, plus a boolean describing the one behaviour of
its content that matters to the claims: whether the content calls
cx.request_draw() while it is being drawn.  A container content draws
its child Pods in tree order; drawing a child Pod propagates the child
state into the enclosing node's state, exactly as Pod::draw does. -/

mutual
/-- Node of the pod tree: the request_draw behaviour of the content, the
ViewState owned by the Pod, and the child pods. -/
inductive PTree where
  | mk (req : Bool) (vs : ViewState) (children : PForest)

/-- List of sibling pods, in tree order. -/
inductive PForest where
  | nil
  | cons (head : PTree) (tail : PForest)
end

/-- Behaviour flag of a node. -/
def PTree.req : PTree → Bool
  | .mk r _ _ => r

/-- ViewState of a node. -/
def PTree.vs : PTree → ViewState
  | .mk _ v _ => v

/-- Children of a node. -/
def PTree.children : PTree → PForest
  | .mk _ _ c => c

mutual
/-- Pod::draw over a node: remove the DRAW bit of the owned state, draw
the content (the children, in order, each propagating into this node's
state; then the content's own request_draw, if it makes one), and
propagate the resulting state into the parent context state.  Returns
the updated tree and the updated parent state. -/
def podDraw : PTree → ViewState → PTree × ViewState
  | .mk req vs cs, parent =>
    let vs1 := { vs with update := vs.update.removeDraw }
    let r := podDrawForest cs vs1
    let vs2 := if req then r.2.request_draw else r.2
    (.mk req vs2 r.1, parent.propagate vs2)

/-- Draw a forest of sibling pods in tree order, each propagating into
the enclosing state. -/
def podDrawForest : PForest → ViewState → PForest × ViewState
  | .nil, vs => (.nil, vs)
  | .cons t rest, vs =>
    let r := podDraw t vs
    let r2 := podDrawForest rest r.2
    (.cons r.1 r2.1, r2.2)
end

mutual
/-- Does some node of the tree request a draw during the pass. -/
def hasReq : PTree → Bool
  | .mk req _ cs => req || hasReqForest cs

/-- Does some node of the forest request a draw during the pass. -/
def hasReqForest : PForest → Bool
  | .nil => false
  | .cons t rest => hasReq t || hasReqForest rest
end

mutual
/-- Clear every request_draw behaviour flag, keeping the states: the
otherwise idle second pass of the claim runs on this tree. -/
def clearReq : PTree → PTree
  | .mk _ vs cs => .mk false vs (clearReqForest cs)

/-- Clear all behaviour flags of a forest. -/
def clearReqForest : PForest → PForest
  | .nil => .nil
  | .cons t rest => .cons (clearReq t) (clearReqForest rest)
end

/-- Replace the state of the root node (used to apply drawn() to the
root between the two passes of the claim). -/
def PTree.withVs : PTree → ViewState → PTree
  | .mk req _ cs, vs => .mk req vs cs

mutual
/-- Depth of the tree (a single node has depth zero). -/
def PTree.depthOf : PTree → Nat
  | .mk _ _ cs => PForest.depthOf cs

/-- One plus the maximal depth of the forest members, zero for the empty
forest. -/
def PForest.depthOf : PForest → Nat
  | .nil => 0
  | .cons t rest => max (t.depthOf + 1) (PForest.depthOf rest)
end

/-- Is a forest empty. -/
def PForest.isNil : PForest → Bool
  | .nil => true
  | .cons _ _ => false

mutual
/-- Every node whose content requests a draw is a childless node sitting
at depth d from the root: the shape of tree the claim quantifies over,
with d the depth of the deepest leaf. -/
def reqOnlyLeafAt (d : Nat) : PTree → Bool
  | .mk req _ cs =>
    (!req || (decide (d = 0) && cs.isNil)) && reqOnlyLeafAtForest d cs

/-- Forest version of reqOnlyLeafAt; the children sit one level deeper,
so the target depth decreases by one. -/
def reqOnlyLeafAtForest (d : Nat) : PForest → Bool
  | .nil => true
  | .cons t rest => reqOnlyLeafAt (d - 1) t && reqOnlyLeafAtForest d rest
end

mutual
/-- Lifecycle pass of the specification over the pod tree: the wrapper
first calls ViewState::prepare on the node's state (resetting has_active
to the node's own active flag), runs the pass over the children, and
propagates each child state into the node's state immediately after the
child's pass.  Modelled from the spec: the lifecycle wrapper that calls
prepare_layout and prepare_draw is not among the sources (the Pod in
pod.rs predates it); the pass follows the specification's description of
the wrapper, using the prepare and propagate of state.rs verbatim. -/
def lifecyclePass : PTree → PTree
  | .mk req vs cs =>
    let r := lifecyclePassChildren cs vs.prepare
    .mk req r.2 r.1

/-- Pass over the children: run each child's pass and propagate its
resulting state into the accumulating parent state. -/
def lifecyclePassChildren : PForest → ViewState → PForest × ViewState
  | .nil, vs => (.nil, vs)
  | .cons t rest, vs =>
    let t1 := lifecyclePass t
    let r := lifecyclePassChildren rest (vs.propagate t1.vs)
    (.cons t1 r.1, r.2)
end

/-- Membership of a node in a forest. -/
inductive MemF : PTree → PForest → Prop
  | head (t : PTree) (rest : PForest) : MemF t (.cons t rest)
  | tail (t h : PTree) (rest : PForest) : MemF t rest → MemF t (.cons h rest)

/-- Subtree relation: a node together with its descendants.  Subtree s t
holds when s is t itself or a subtree of one of the children of t. -/
inductive Subtree : PTree → PTree → Prop
  | refl (t : PTree) : Subtree t t
  | child (s c t : PTree) : MemF c t.children → Subtree s c → Subtree s t

mutual
/-- Is the own active flag set somewhere in the tree. -/
def anyActive : PTree → Bool
  | .mk _ vs cs => vs.active || anyActiveForest cs

/-- Is the own active flag set somewhere in the forest. -/
def anyActiveForest : PForest → Bool
  | .nil => false
  | .cons t rest => anyActive t || anyActiveForest rest
end

/-- Disjunction of the has_active flags of the members of a forest (what
a node aggregates from its children through propagate). -/
def childrenHasActive : PForest → Bool
  | .nil => false
  | .cons t rest => t.vs.has_active || childrenHasActive rest

/-- Image of a forest under the lifecycle pass, member by member.  The
children produced by lifecyclePassChildren coincide with this map
whatever the accumulating parent state is. -/
def passMap : PForest → PForest
  | .nil => .nil
  | .cons t rest => .cons (lifecyclePass t) (passMap rest)

/-- Example tree for the draw-pass claim: a root whose content draws one
child pod, the child being a leaf whose content calls request_draw
during its draw. -/
def exTreeDraw : PTree :=
  .mk false ViewState.defaultState
    (.cons (.mk true ViewState.defaultState .nil) .nil)

/-- Example tree for the has_active claim: an inactive root with one
child, an inactive middle node, holding one leaf whose active flag is
set. -/
def exTreeActive : PTree :=
  .mk false ViewState.defaultState
    (.cons
      (.mk false ViewState.defaultState
        (.cons (.mk false { ViewState.defaultState with active := true } .nil)
          .nil))
      .nil)

/-! ## Option and Result view combinators (crates/ori-core/src/view/view.rs)

The content views are instantiated with a leaf view whose description is
a natural number, whose build returns the description as its state, and
whose rebuild keeps the state unchanged (persistent state surviving a
rebuild).  This makes the provenance of the state observable: a state
equal to the old state was retained, a state equal to the new
description was built fresh. -/

/-- Build of the leaf content view: the state records the description it
was built from. -/
def innerBuild (v : Nat) : Nat := v

/-- Rebuild of the leaf content view: the persistent state survives
unchanged. -/
def innerRebuild (_v : Nat) (s : Nat) (_old : Nat) : Nat := s

/-- View::build for Option: build the content when present. -/
def optionBuild (self : Option Nat) : Option Nat :=
  self.map innerBuild

/-- View::rebuild for Option.  Mirrors the source: when the new view is
Some, a missing state is built fresh; when the old view is also Some the
content is rebuilt in place; finally, a layout request is issued iff the
variant changed. -/
def optionRebuild (self : Option Nat) (state : Option Nat) (cx : ViewState)
    (old : Option Nat) : Option Nat × ViewState :=
  let r :=
    match self with
    | some v =>
      let st := if state.isNone then some (innerBuild v) else state
      match old with
      | some oldView => (st.map (fun s => innerRebuild v s oldView), cx)
      | none => (st, cx)
    | none => (state, cx)
  if self.isSome != old.isSome then (r.1, r.2.request_layout) else r

/-- Sum type standing for Result of two leaf content views: inl is Ok,
inr is Err. -/
def isOkR : Nat ⊕ Nat → Bool :=
  Sum.isLeft

/-- View::build for Result: build the content of the active variant. -/
def resultBuild (self : Nat ⊕ Nat) : Nat ⊕ Nat :=
  match self with
  | .inl v => .inl (innerBuild v)
  | .inr v => .inr (innerBuild v)

/-- View::rebuild for Result.  Mirrors the source match: both-Ok and
both-Err triples rebuild the content in place; every other triple
rebuilds the state from scratch, resets the whole ViewState behind the
context to its default and requests a layout. -/
def resultRebuild (self : Nat ⊕ Nat) (state : Nat ⊕ Nat) (cx : ViewState)
    (old : Nat ⊕ Nat) : (Nat ⊕ Nat) × ViewState :=
  match self, state, old with
  | .inl v, .inl s, .inl o => (.inl (innerRebuild v s o), cx)
  | .inr v, .inr s, .inr o => (.inr (innerRebuild v s o), cx)
  | _, _, _ => (resultBuild self, ViewState.defaultState.request_layout)

/-! ## Lemmas about the emitter -/

theorem emitLoop_fst (alive : Nat → Bool) (beh : Nat → List EmitterOp) :
    ∀ (l m : List Nat), (emitLoop alive beh l m).1 = l.filter alive := by
  intro l
  induction l with
  | nil => intro m; rfl
  | cons k rest ih =>
    intro m
    by_cases h : alive k
    · simp [emitLoop, h, List.filter_cons, ih]
    · simp [emitLoop, h, List.filter_cons, ih]

theorem emit_fst (alive : Nat → Bool) (beh : Nat → List EmitterOp)
    (m : List Nat) : (emit alive beh m).1 = m.reverse.filter alive := by
  simp [emit, emitLoop_fst]

theorem emitLoop_snd_inert (alive : Nat → Bool) :
    ∀ (l m : List Nat), (emitLoop alive (fun _ => []) l m).2 = m := by
  intro l
  induction l with
  | nil => intro m; rfl
  | cons k rest ih =>
    intro m
    by_cases h : alive k
    · simp [emitLoop, h, applyOps, ih]
    · simp [emitLoop, h, ih]

theorem mem_insertKey (y k : Nat) :
    ∀ (m : List Nat), y ∈ insertKey k m ↔ y = k ∨ y ∈ m := by
  intro m
  induction m with
  | nil => simp [insertKey]
  | cons x xs ih =>
    by_cases h1 : k < x
    · simp [insertKey, h1]
    · by_cases h2 : k = x
      · subst h2
        simp only [insertKey, h1, if_false, if_true, List.mem_cons]
        tauto
      · simp only [insertKey, h1, if_false, h2, List.mem_cons, ih]
        tauto

theorem pairwise_insertKey (k : Nat) :
    ∀ (m : List Nat), m.Pairwise (· < ·) → (insertKey k m).Pairwise (· < ·) := by
  intro m
  induction m with
  | nil => intro _; simp [insertKey]
  | cons x xs ih =>
    intro hp
    rw [List.pairwise_cons] at hp
    obtain ⟨hx, hxs⟩ := hp
    by_cases h1 : k < x
    · simp only [insertKey, h1, if_true]
      rw [List.pairwise_cons]
      refine ⟨?_, ?_⟩
      · intro y hy
        rcases List.mem_cons.mp hy with rfl | hy
        · exact h1
        · exact lt_trans h1 (hx y hy)
      · rw [List.pairwise_cons]
        exact ⟨hx, hxs⟩
    · by_cases h2 : k = x
      · subst h2
        simp only [insertKey, h1, if_false, if_pos rfl]
        exact List.pairwise_cons.mpr ⟨hx, hxs⟩
      · simp only [insertKey, h1, if_false, h2]
        rw [List.pairwise_cons]
        refine ⟨?_, ih hxs⟩
        intro y hy
        rcases (mem_insertKey y k xs).mp hy with rfl | hy
        · rcases Nat.lt_trichotomy y x with h | h | h
          · exact absurd h h1
          · exact absurd h h2
          · exact h
        · exact hx y hy

theorem removeKey_sublist (k : Nat) :
    ∀ (m : List Nat), (removeKey k m).Sublist m := by
  intro m
  induction m with
  | nil => simp [removeKey]
  | cons x xs ih =>
    by_cases h : k = x
    · simp only [removeKey, h, if_pos rfl]
      exact List.sublist_cons_self x xs
    · simp only [removeKey, h, if_false]
      exact ih.cons₂ x

theorem pairwise_applyOp (m : List Nat) (op : EmitterOp)
    (hp : m.Pairwise (· < ·)) : (applyOp m op).Pairwise (· < ·) := by
  cases op with
  | sub k => exact pairwise_insertKey k m hp
  | unsub k => exact List.Pairwise.sublist (removeKey_sublist k m) hp

theorem pairwise_applyOps (ops : List EmitterOp) :
    ∀ (m : List Nat), m.Pairwise (· < ·) → (applyOps m ops).Pairwise (· < ·) := by
  induction ops with
  | nil => intro m hp; exact hp
  | cons op rest ih =>
    intro m hp
    exact ih (applyOp m op) (pairwise_applyOp m op hp)

theorem pairwise_buildMap (ops : List EmitterOp) :
    (buildMap ops).Pairwise (· < ·) :=
  pairwise_applyOps ops [] List.Pairwise.nil

theorem nodup_buildMap (ops : List EmitterOp) : (buildMap ops).Nodup :=
  (pairwise_buildMap ops).imp Nat.ne_of_lt

theorem insertKey_append (k : Nat) :
    ∀ (m : List Nat), (∀ x ∈ m, x < k) → insertKey k m = m ++ [k] := by
  intro m
  induction m with
  | nil => intro _; rfl
  | cons x xs ih =>
    intro hk
    have hxk : x < k := hk x (List.mem_cons_self x xs)
    have h1 : ¬k < x := by omega
    have h2 : ¬k = x := by omega
    simp only [insertKey, h1, if_false, h2, List.cons_append]
    rw [ih (fun y hy => hk y (List.mem_cons_of_mem x hy))]

theorem subscribeAll_pairwise :
    ∀ (seq m : List Nat), (m ++ seq).Pairwise (· < ·) →
      subscribeAll m seq = m ++ seq := by
  intro seq
  induction seq with
  | nil => intro m _; simp [subscribeAll]
  | cons k rest ih =>
    intro m hp
    have hcross : ∀ x ∈ m, x < k := by
      intro x hx
      have := (List.pairwise_append.mp hp).2.2 x hx k (List.mem_cons_self k rest)
      exact this
    have hins : insertKey k m = m ++ [k] := insertKey_append k m hcross
    have hstep : subscribeAll m (k :: rest) = subscribeAll (m ++ [k]) rest := by
      simp [subscribeAll, hins]
    rw [hstep, ih (m ++ [k]) (by simpa using hp)]
    simp

/-! ## Claim C1 -/

/-- C1.  CallbackEmitter::emit takes the whole registration set out of
the emitter before invoking anything, so the set of invocations is fixed
by the pre-emit registration set and the aliveness of its entries,
whatever subscriptions the invoked callbacks perform reentrantly; a
callback key not registered before emit is never invoked during that
emit; when no callback resubscribes anything, the emitter is left empty;
and a callback subscribed during emit that is still alive is invoked by
a subsequent emit. -/
theorem emit_take_then_invoke (alive : Nat → Bool)
    (beh beh2 : Nat → List EmitterOp) (m : List Nat) (k : Nat) :
    (emit alive beh m).1 = m.reverse.filter alive
    ∧ (k ∉ m → k ∉ (emit alive beh m).1)
    ∧ (emit alive (fun _ => []) m).2 = []
    ∧ (k ∈ (emit alive beh m).2 → alive k = true →
        k ∈ (emit alive beh2 (emit alive beh m).2).1) := by
  refine ⟨emit_fst alive beh m, ?_, ?_, ?_⟩
  · intro hk hmem
    rw [emit_fst] at hmem
    exact hk (List.mem_reverse.mp (List.mem_of_mem_filter hmem))
  · simp [emit, emitLoop_snd_inert]
  · intro hk halive
    rw [emit_fst]
    exact List.mem_filter.mpr ⟨List.mem_reverse.mpr hk, halive⟩

/-- Witness for C1 at a concrete input: two registered callbacks with
keys 1 and 2, each of which subscribes the fresh callback 5 while being
invoked; 5 is not invoked during this emit, remains registered
afterwards, and is invoked by the next emit. -/
theorem emit_take_then_invoke_witness :
    (5 ∉ ([1, 2] : List Nat)
      ∧ 5 ∉ (emit (fun _ => true) (fun _ => [EmitterOp.sub 5]) [1, 2]).1)
    ∧ (5 ∈ (emit (fun _ => true) (fun _ => [EmitterOp.sub 5]) [1, 2]).2
      ∧ 5 ∈ (emit (fun _ => true) (fun _ => [])
          ((emit (fun _ => true) (fun _ => [EmitterOp.sub 5]) [1, 2]).2)).1) :=
  ⟨⟨by decide,
    (emit_take_then_invoke (fun _ => true) (fun _ => [EmitterOp.sub 5])
      (fun _ => []) [1, 2] 5).2.1 (by decide)⟩,
   ⟨by decide,
    (emit_take_then_invoke (fun _ => true) (fun _ => [EmitterOp.sub 5])
      (fun _ => []) [1, 2] 5).2.2.2 (by decide) (by decide)⟩⟩

/-! ## Claim C3 -/

/-- C3.  After any sequence of subscribe and unsubscribe calls, one emit
invokes every registered callback that is still alive exactly once, and
invokes a callback whose strong count reached zero (dead at the moment
emit is called) zero times; dead entries are skipped by the failed
upgrade, which in this total model cannot panic.  The single event of
the emission is delivered to each invocation. -/
theorem emit_alive_exactly_once (ops : List EmitterOp)
    (alive : Nat → Bool) (beh : Nat → List EmitterOp) (k : Nat) :
    (alive k = true → k ∈ buildMap ops →
      ((emit alive beh (buildMap ops)).1.count k = 1))
    ∧ (alive k = false →
      ((emit alive beh (buildMap ops)).1.count k = 0)) := by
  constructor
  · intro halive hmem
    rw [emit_fst, List.count_filter halive, List.count_reverse]
    exact List.count_eq_one_of_mem (nodup_buildMap ops) hmem
  · intro hdead
    rw [emit_fst]
    apply List.count_eq_zero.mpr
    intro hmem
    have := (List.mem_filter.mp hmem).2
    rw [hdead] at this
    exact Bool.false_ne_true this

/-- Witness for C3: subscribe 1, subscribe 2, unsubscribe 1, subscribe 3
leaves keys 2 and 3 registered; with callback 3 dead, the emission
invokes 2 exactly once and 3 not at all. -/
theorem emit_alive_exactly_once_witness :
    ((fun j => j != 3) 2 = true
      ∧ 2 ∈ buildMap [.sub 1, .sub 2, .unsub 1, .sub 3]
      ∧ (emit (fun j => j != 3) (fun _ => [])
          (buildMap [.sub 1, .sub 2, .unsub 1, .sub 3])).1.count 2 = 1)
    ∧ ((fun j => j != 3) 3 = false
      ∧ (emit (fun j => j != 3) (fun _ => [])
          (buildMap [.sub 1, .sub 2, .unsub 1, .sub 3])).1.count 3 = 0) :=
  ⟨⟨by decide, by decide,
    (emit_alive_exactly_once [.sub 1, .sub 2, .unsub 1, .sub 3]
      (fun j => j != 3) (fun _ => []) 2).1 (by decide) (by decide)⟩,
   ⟨by decide,
    (emit_alive_exactly_once [.sub 1, .sub 2, .unsub 1, .sub 3]
      (fun j => j != 3) (fun _ => []) 3).2 (by decide)⟩⟩

/-! ## Claim C9 -/

/-- Counterexample to C9 as stated.  Subscribing the callback with
pointer key 2 first and the callback with pointer key 1 second, both
alive, leads emit to invoke 2 before 1 (reverse key order of the
BTreeMap), while reverse subscription order would invoke 1 first: the
claimed LIFO-by-subscription order fails whenever subscription order
disagrees with the order of the pointer keys. -/
theorem emit_not_lifo_counterexample :
    (emit (fun _ => true) (fun _ => []) (subscribeAll [] [2, 1])).1 = [2, 1]
    ∧ List.reverse [2, 1] = [1, 2]
    ∧ ([2, 1] : List Nat) ≠ ([1, 2] : List Nat) :=
  ⟨by decide, by decide, by decide⟩

/-- C9 amended.  Within one emit the surviving callbacks are invoked in
reverse key (pointer) order of the registration map; this coincides with
LIFO by subscription exactly when the callbacks were subscribed in
increasing key order, as the second conjunct states for any strictly
increasing subscription sequence. -/
theorem emit_reverse_key_order (alive : Nat → Bool)
    (beh : Nat → List EmitterOp) (m seq : List Nat)
    (hseq : seq.Pairwise (· < ·)) :
    (emit alive beh m).1 = m.reverse.filter alive
    ∧ (emit alive beh (subscribeAll [] seq)).1 = seq.reverse.filter alive := by
  refine ⟨emit_fst alive beh m, ?_⟩
  rw [subscribeAll_pairwise seq [] (by simpa using hseq)]
  simpa using emit_fst alive beh seq

/-- Witness for C9 amended: subscribing keys 1 then 2 (subscription in
key order) makes the emission LIFO: 2 is invoked first. -/
theorem emit_reverse_key_order_witness :
    ([1, 2] : List Nat).Pairwise (· < ·)
    ∧ (emit (fun _ => true) (fun _ => []) (subscribeAll [] [1, 2])).1
        = ([1, 2] : List Nat).reverse.filter (fun _ => true) :=
  ⟨by decide,
   (emit_reverse_key_order (fun _ => true) (fun _ => []) [] [1, 2]
      (by decide)).2⟩

/-! ## Claim C2 -/

/-- C2.  On a live signal (the well-formedness hypothesis says the
emitter slot is alive exactly when the value slot is, which is how
new_leaking creates the pair and how the Drop of OwnedSignal disposes
it), try_set returns Ok, stores the new value, and appends exactly one
emission to the log; the logged entry is the value slot content at
notification time, namely the value just written, so the write happens
before the notification.  Signal::set returns the same state.  A second
try_set, with any value including an equal one, appends exactly one
further emission: emission does not deduplicate by value equality. -/
theorem signal_set_writes_then_notifies_once {α : Type}
    (s : SignalState α) (v w : α)
    (hinv : s.emitterAlive = s.value.isSome) (hlive : s.value.isSome = true) :
    ∃ s1, s.trySet v = .ok s1
      ∧ s1.value = some v
      ∧ s1.emitLog = s.emitLog ++ [some v]
      ∧ s.set v = .ok s1
      ∧ ∃ s2, s1.trySet w = .ok s2
        ∧ s2.value = some w
        ∧ s2.emitLog = s.emitLog ++ [some v, some w] := by
  obtain ⟨x, hx⟩ := Option.isSome_iff_exists.mp hlive
  have hea : s.emitterAlive = true := by rw [hinv, hlive]
  have h1 : s.trySet v
      = .ok { s with value := some v, emitLog := s.emitLog ++ [some v] } := by
    simp [SignalState.trySet, SignalState.trySetUntracked, hx,
      SignalState.signalEmit, hea]
  refine ⟨{ s with value := some v, emitLog := s.emitLog ++ [some v] },
    h1, rfl, rfl, ?_, ?_⟩
  · simp [SignalState.set, h1]
  · refine ⟨{ s with value := some w, emitLog := s.emitLog ++ [some v, some w] }, ?_, rfl, rfl⟩
    simp [SignalState.trySet, SignalState.trySetUntracked,
      SignalState.signalEmit, hea]

/-- Witness for C2, realising Scenario A of the specification: a live
signal storing 1 receives set(1) twice; both calls succeed and the
emission log gains two entries, although the written value never
changes. -/
theorem signal_set_writes_then_notifies_once_witness :
    ((⟨some 1, 0, true, []⟩ : SignalState Nat).emitterAlive
        = (⟨some 1, 0, true, []⟩ : SignalState Nat).value.isSome)
    ∧ ((⟨some 1, 0, true, []⟩ : SignalState Nat).value.isSome = true)
    ∧ (∃ s1, (⟨some 1, 0, true, []⟩ : SignalState Nat).trySet 1 = .ok s1
        ∧ s1.value = some 1
        ∧ s1.emitLog
            = (⟨some 1, 0, true, []⟩ : SignalState Nat).emitLog ++ [some 1]
        ∧ (⟨some 1, 0, true, []⟩ : SignalState Nat).set 1 = .ok s1
        ∧ ∃ s2, s1.trySet 1 = .ok s2
          ∧ s2.value = some 1
          ∧ s2.emitLog
              = (⟨some 1, 0, true, []⟩ : SignalState Nat).emitLog
                  ++ [some 1, some 1]) :=
  ⟨rfl, rfl,
   signal_set_writes_then_notifies_once (⟨some 1, 0, true, []⟩ : SignalState Nat)
     1 1 rfl rfl⟩

/-! ## Claim C6 -/

/-- C6.  After the Drop of OwnedSignal disposed the value and emitter
slots, every remaining handle to the signal sees the disposed slot:
try_get returns None and try_set returns Err handing the value back,
both as ordinary return values of panic-free functions; the panicking
variants fail loudly, get with a diagnostic carrying the resource id
printed by its panic message, set with its id-less diagnostic. -/
theorem disposed_signal_ops {α : Type} (s : SignalState α) (v : α) :
    (s.ownedDrop).tryGet = none
    ∧ (s.ownedDrop).trySet v = .error v
    ∧ (s.ownedDrop).get = .error (.getOnDropped s.resourceId)
    ∧ (s.ownedDrop).set v = .error .setOnDropped :=
  ⟨rfl, rfl, rfl, rfl⟩

/-! ## Claim C8 -/

/-- Counterexample to C8 as stated.  ViewState::set_hot and
ViewState::set_active return the unit value, so no function of their
return value can tell a changing call from a non-changing one: at the
concrete inputs, setting hot to true on the default state (a change)
and on a state whose hot flag is already true (no change) produce
identical return values, and likewise for set_active.  The claimed
change-indicating boolean return therefore does not exist on
ViewState. -/
theorem set_hot_active_unit_return_counterexample :
    (¬ ∃ f : Unit → Bool, ∀ (s : ViewState) (b : Bool),
        f (ViewState.set_hot s b).2 = (s.hot != b))
    ∧ (¬ ∃ f : Unit → Bool, ∀ (s : ViewState) (b : Bool),
        f (ViewState.set_active s b).2 = (s.active != b)) := by
  constructor
  · rintro ⟨f, hf⟩
    have h1 : f () = true := hf ViewState.defaultState true
    have h2 : f () = false := hf { ViewState.defaultState with hot := true } true
    exact absurd (h1.symm.trans h2) (by decide)
  · rintro ⟨f, hf⟩
    have h1 : f () = true := hf ViewState.defaultState true
    have h2 : f () = false := hf { ViewState.defaultState with active := true } true
    exact absurd (h1.symm.trans h2) (by decide)

/-- C8 amended.  The change-indicating boolean is returned by the
context wrappers set_hot and set_active of contexts.rs, which compare
the stored flag with the argument before delegating to the ViewState
setters; the ViewState setters themselves return nothing.  Neither the
wrappers nor the ViewState setters touch the Update bitset: requesting
a redraw after a change remains the caller's responsibility. -/
theorem set_hot_active_change_indicator (s : ViewState) (b : Bool) :
    (Cx.set_hot s b).2 = (s.hot != b)
    ∧ (Cx.set_hot s b).1.hot = b
    ∧ (Cx.set_hot s b).1.update = s.update
    ∧ (Cx.set_active s b).2 = (s.active != b)
    ∧ (Cx.set_active s b).1.active = b
    ∧ (Cx.set_active s b).1.update = s.update
    ∧ (ViewState.set_hot s b).1.update = s.update
    ∧ (ViewState.set_active s b).1.update = s.update :=
  ⟨rfl, rfl, rfl, rfl, rfl, rfl, rfl, rfl⟩

/-! ## Claims C7 and C10 -/

/-- Counterexample to C7 as stated.  For Option, the code does not
discard the old state on a variant change.  The run shown: build the
view tree Some 7 (state Some 7); rebuild with the new tree None against
old Some 7 — the state is retained as Some 7 instead of being
discarded; rebuild again with the new tree Some 9 against old None —
the retained state Some 7 is reused and build is not invoked for the
new content, although the claim demands a fresh build, which would
yield Some 9. -/
theorem option_rebuild_retains_state_counterexample :
    optionBuild (some 7) = some 7
    ∧ (optionRebuild none (some 7) ViewState.defaultState (some 7)).1 = some 7
    ∧ (optionRebuild (some 9)
        (optionRebuild none (some 7) ViewState.defaultState (some 7)).1
        ViewState.defaultState none).1 = some 7
    ∧ some 7 ≠ some (innerBuild 9) :=
  ⟨by decide, by decide, by decide, by decide⟩

/-- C7 amended.  Result discards the old state on every variant
mismatch, invokes build fresh and forces a layout request (also
resetting the whole ViewState).  Option forces a layout request exactly
when the variant changed, but handles state differently: on a change to
None the old state is retained; on a change to Some, build is invoked
fresh only when no state is retained, and a retained state is reused
without a fresh build. -/
theorem sum_view_rebuild_variant_change (state : Nat ⊕ Nat)
    (ost : Option Nat) (cx : ViewState) (v o : Nat)
    (hmm : isOkR state = false) :
    (resultRebuild (.inl v) state cx (.inr o)
        = (.inl (innerBuild v), ViewState.defaultState.request_layout))
    ∧ (resultRebuild (.inr v) state cx (.inl o)).2 = ViewState.defaultState
    ∧ (optionRebuild none ost cx (some o)).1 = ost
    ∧ (optionRebuild none ost cx (some o)).2 = cx.request_layout
    ∧ (optionRebuild (some v) none cx none).1 = some (innerBuild v)
    ∧ (optionRebuild (some v) (some o) cx none).1 = some o
    ∧ (optionRebuild (some v) (some o) cx none).2 = cx.request_layout
    ∧ (optionRebuild (some v) (some o) cx (some o)).2 = cx := by
  refine ⟨?_, ?_, ?_, ?_, ?_, ?_, ?_, ?_⟩
  · cases state with
    | inl a => simp [isOkR] at hmm
    | inr a => rfl
  · cases state with
    | inl a => simp [isOkR] at hmm
    | inr a => rfl
  · cases ost <;> rfl
  · cases ost <;> rfl
  · rfl
  · rfl
  · rfl
  · rfl

/-- Witness for C7 amended at concrete inputs: an Err state meets a new
Ok view with old Err, and the Option cases are instantiated with
content 9 and retained state 7. -/
theorem sum_view_rebuild_variant_change_witness :
    isOkR (.inr 4) = false
    ∧ resultRebuild (.inl 3) (.inr 4) ViewState.defaultState (.inr 4)
        = (.inl (innerBuild 3), ViewState.defaultState.request_layout)
    ∧ (optionRebuild (some 9) (some 7) ViewState.defaultState none).1 = some 7 :=
  ⟨by decide,
   (sum_view_rebuild_variant_change (.inr 4) (some 7) ViewState.defaultState
      3 4 (by decide)).1,
   (sum_view_rebuild_variant_change (.inr 4) (some 7) ViewState.defaultState
      9 7 (by decide)).2.2.2.2.2.1⟩

/-- C10.  When Result::rebuild hits a variant mismatch (new Ok against
old Err or new Err against old Ok, the state matching the old variant),
it rebuilds the state from scratch and resets the node's entire
ViewState behind the context to its default value: hot, focused,
active and has_active cleared, size zero, identity transform, and both
Update bits set, so all accumulated per-node interaction state is
lost. -/
theorem result_rebuild_mismatch_resets_view_state
    (self state old : Nat ⊕ Nat) (cx : ViewState)
    (hstate : isOkR state = isOkR old) (hmm : isOkR self ≠ isOkR old) :
    (resultRebuild self state cx old).2 = ViewState.defaultState
    ∧ (resultRebuild self state cx old).2.hot = false
    ∧ (resultRebuild self state cx old).2.focused = false
    ∧ (resultRebuild self state cx old).2.active = false
    ∧ (resultRebuild self state cx old).2.has_active = false
    ∧ (resultRebuild self state cx old).2.size = Size.zero
    ∧ (resultRebuild self state cx old).2.transform = Affine.identity
    ∧ (resultRebuild self state cx old).2.update.layout = true
    ∧ (resultRebuild self state cx old).2.update.draw = true
    ∧ (resultRebuild self state cx old).1 = resultBuild self := by
  have hres : resultRebuild self state cx old
      = (resultBuild self, ViewState.defaultState.request_layout) := by
    cases self with
    | inl a =>
      cases old with
      | inl b => simp [isOkR] at hmm
      | inr b =>
        cases state with
        | inl c => simp [isOkR] at hstate
        | inr c => rfl
    | inr a =>
      cases old with
      | inl b =>
        cases state with
        | inl c => rfl
        | inr c => simp [isOkR] at hstate
      | inr b => simp [isOkR] at hmm
  rw [hres]
  exact ⟨rfl, rfl, rfl, rfl, rfl, rfl, rfl, rfl, rfl, rfl⟩

/-- Witness for C10: a new Ok view meets an old Err view whose state is
an Err state, starting from a context state with every interaction flag
set and a translated transform; everything is reset. -/
theorem result_rebuild_mismatch_resets_view_state_witness :
    isOkR (Sum.inr 4 : Nat ⊕ Nat) = isOkR (Sum.inr 5 : Nat ⊕ Nat)
    ∧ isOkR (Sum.inl 3 : Nat ⊕ Nat) ≠ isOkR (Sum.inr 5 : Nat ⊕ Nat)
    ∧ (resultRebuild (.inl 3) (.inr 4)
        { hot := true, focused := true, active := true, has_active := true,
          update := ⟨false, false⟩, flex := 2, size := ⟨3, 4⟩,
          transform := ⟨1, 0, 0, 1, 5, 6⟩, depth := 7, cursor := .pointer }
        (.inr 5)).2 = ViewState.defaultState :=
  ⟨by decide, by decide,
   (result_rebuild_mismatch_resets_view_state (.inl 3) (.inr 4) (.inr 5)
      { hot := true, focused := true, active := true, has_active := true,
        update := ⟨false, false⟩, flex := 2, size := ⟨3, 4⟩,
        transform := ⟨1, 0, 0, 1, 5, 6⟩, depth := 7, cursor := .pointer }
      (by decide) (by decide)).1⟩

/-! ## Lemmas about the draw pass -/

mutual
theorem podDraw_update_draw : ∀ (t : PTree) (p : ViewState),
    ((podDraw t p).1.vs.update.draw = hasReq t)
    ∧ ((podDraw t p).2.update.draw = (p.update.draw || hasReq t))
  | .mk req vs cs, p => by
    have hf := podDrawForest_update_draw cs
      { vs with update := vs.update.removeDraw }
    simp only [Update.removeDraw] at hf
    constructor
    · cases req <;>
        simp [podDraw, hasReq, PTree.vs, ViewState.request_draw,
          Update.union, Update.removeDraw, hf]
    · cases req <;>
        simp [podDraw, hasReq, PTree.vs, ViewState.propagate,
          ViewState.request_draw, Update.union, Update.removeDraw, hf,
          Bool.or_assoc]

theorem podDrawForest_update_draw : ∀ (f : PForest) (vs : ViewState),
    (podDrawForest f vs).2.update.draw = (vs.update.draw || hasReqForest f)
  | .nil, vs => by simp [podDrawForest, hasReqForest]
  | .cons t rest, vs => by
    have ht := (podDraw_update_draw t vs).2
    have hr := podDrawForest_update_draw rest (podDraw t vs).2
    simp [podDrawForest, hasReqForest, hr, ht, Bool.or_assoc]
end

mutual
theorem hasReq_clearReq : ∀ (t : PTree), hasReq (clearReq t) = false
  | .mk req vs cs => by
    simp [clearReq, hasReq, hasReqForest_clearReq cs]

theorem hasReqForest_clearReq : ∀ (f : PForest),
    hasReqForest (clearReqForest f) = false
  | .nil => rfl
  | .cons t rest => by
    simp [clearReqForest, hasReqForest, hasReq_clearReq t,
      hasReqForest_clearReq rest]
end

/-! ## Claim C4 -/

/-- C4.  For a tree in which request_draw is called only by the content
of a deepest leaf during the draw pass, the completed pass leaves the
DRAW bit set in the root's ViewState (the leaf sets it after its own bit
was cleared, and every propagate ors it upward); applying drawn() to the
root clears the bit; and a second full pass over the same states, in
which no content requests anything, leaves the root's DRAW bit clear. -/
theorem pod_draw_dirty_propagation (t : PTree) (p q : ViewState)
    (_hshape : reqOnlyLeafAt t.depthOf t = true) (hreq : hasReq t = true) :
    ((podDraw t p).1.vs.update.draw = true)
    ∧ (((podDraw t p).1.vs.drawn).update.draw = false)
    ∧ ((podDraw (clearReq ((podDraw t p).1.withVs ((podDraw t p).1.vs.drawn))) q).1.vs.update.draw = false) := by
  refine ⟨?_, rfl, ?_⟩
  · rw [(podDraw_update_draw t p).1, hreq]
  · rw [(podDraw_update_draw _ q).1, hasReq_clearReq]

/-- Witness for C4: a two-level tree whose only leaf requests a draw
during the pass; the root's DRAW bit is set afterwards. -/
theorem pod_draw_dirty_propagation_witness :
    reqOnlyLeafAt exTreeDraw.depthOf exTreeDraw = true
    ∧ hasReq exTreeDraw = true
    ∧ ((podDraw exTreeDraw ViewState.defaultState).1.vs.update.draw = true) :=
  ⟨by decide, by decide,
   (pod_draw_dirty_propagation exTreeDraw ViewState.defaultState
      ViewState.defaultState (by decide) (by decide)).1⟩

/-! ## Lemmas about the lifecycle pass -/

theorem lifecyclePassChildren_fst : ∀ (f : PForest) (vs : ViewState),
    (lifecyclePassChildren f vs).1 = passMap f
  | .nil, _ => rfl
  | .cons t rest, vs => by
    simp [lifecyclePassChildren, passMap, lifecyclePassChildren_fst rest]

theorem lifecyclePass_children : ∀ (t : PTree),
    (lifecyclePass t).children = passMap t.children
  | .mk r vs cs => by
    simp [lifecyclePass, PTree.children, lifecyclePassChildren_fst]

theorem lifecyclePassChildren_snd_active : ∀ (f : PForest) (vs : ViewState),
    (lifecyclePassChildren f vs).2.active = vs.active
  | .nil, _ => rfl
  | .cons t rest, vs => by
    simp [lifecyclePassChildren, lifecyclePassChildren_snd_active rest,
      ViewState.propagate]

theorem lifecyclePass_vs_active : ∀ (t : PTree),
    (lifecyclePass t).vs.active = t.vs.active
  | .mk r vs cs => by
    simp [lifecyclePass, PTree.vs, lifecyclePassChildren_snd_active,
      ViewState.prepare]

mutual
theorem lifecyclePass_has_active : ∀ (t : PTree),
    (lifecyclePass t).vs.has_active = anyActive t
  | .mk r vs cs => by
    have h := lifecyclePassChildren_snd_has cs vs.prepare
    simp only [ViewState.prepare] at h
    simp [lifecyclePass, PTree.vs, anyActive, ViewState.prepare, h]

theorem lifecyclePassChildren_snd_has : ∀ (f : PForest) (vs : ViewState),
    (lifecyclePassChildren f vs).2.has_active
      = (vs.has_active || anyActiveForest f)
  | .nil, vs => by simp [lifecyclePassChildren, anyActiveForest]
  | .cons t rest, vs => by
    have ht := lifecyclePass_has_active t
    have hr := lifecyclePassChildren_snd_has rest
      (vs.propagate (lifecyclePass t).vs)
    simp only [ViewState.propagate] at hr
    rw [ht] at hr
    simp [lifecyclePassChildren, anyActiveForest, ViewState.propagate, hr,
      ht, Bool.or_assoc]
end

theorem anyActive_eq (t : PTree) :
    anyActive t = (t.vs.active || anyActiveForest t.children) := by
  cases t; rfl

theorem childrenHasActive_passMap : ∀ (f : PForest),
    childrenHasActive (passMap f) = anyActiveForest f
  | .nil => rfl
  | .cons t rest => by
    simp [passMap, childrenHasActive, anyActiveForest,
      lifecyclePass_has_active t, childrenHasActive_passMap rest]

theorem memF_passMap (c : PTree) : ∀ (f : PForest),
    MemF c (passMap f) ↔ ∃ c0, MemF c0 f ∧ c = lifecyclePass c0
  | .nil => by
    constructor
    · intro h
      rw [show passMap .nil = .nil from rfl] at h
      cases h
    · rintro ⟨c0, hc0, _⟩
      cases hc0
  | .cons t rest => by
    rw [show passMap (.cons t rest) = .cons (lifecyclePass t) (passMap rest)
      from rfl]
    constructor
    · intro h
      cases h with
      | head => exact ⟨t, MemF.head t rest, rfl⟩
      | tail _ _ hmem =>
        obtain ⟨c0, hc0, hce⟩ := (memF_passMap c rest).mp hmem
        exact ⟨c0, MemF.tail c0 t rest hc0, hce⟩
    · rintro ⟨c0, hc0, rfl⟩
      cases hc0 with
      | head => exact MemF.head _ _
      | tail _ _ hmem =>
        exact MemF.tail _ _ _ ((memF_passMap _ rest).mpr ⟨c0, hmem, rfl⟩)

theorem subtree_pass_inv {s x : PTree} (h : Subtree s x) :
    ∀ t : PTree, x = lifecyclePass t →
      ∃ t0, Subtree t0 t ∧ s = lifecyclePass t0 := by
  induction h with
  | refl => intro t ht; exact ⟨t, Subtree.refl t, ht⟩
  | child c x hmem _hsub ih =>
    intro t ht
    subst ht
    rw [lifecyclePass_children t] at hmem
    obtain ⟨c0, hc0, hce⟩ := (memF_passMap c t.children).mp hmem
    subst hce
    obtain ⟨t0, h1, h2⟩ := ih c0 rfl
    exact ⟨t0, Subtree.child t0 c0 t hc0 h1, h2⟩

theorem subtree_pass_map {t0 t : PTree} (h : Subtree t0 t) :
    Subtree (lifecyclePass t0) (lifecyclePass t) := by
  induction h with
  | refl => exact Subtree.refl _
  | child c x hmem _hsub ih =>
    refine Subtree.child _ (lifecyclePass c) _ ?_ ih
    rw [lifecyclePass_children]
    exact (memF_passMap _ _).mpr ⟨c, hmem, rfl⟩

theorem anyActiveForest_of_mem {c : PTree} {f : PForest} (h : MemF c f)
    (hact : anyActive c = true) : anyActiveForest f = true := by
  induction h with
  | head rest => simp [anyActiveForest, hact]
  | tail hd rest _hmem ih => simp [anyActiveForest, ih]

theorem anyActive_of_subtree {u t : PTree} (h : Subtree u t)
    (hact : u.vs.active = true) : anyActive t = true := by
  induction h with
  | refl => rw [anyActive_eq, hact]; simp
  | child c x hmem _hsub ih =>
    rw [anyActive_eq, anyActiveForest_of_mem hmem ih]
    simp

mutual
theorem subtree_active_of_anyActive : ∀ (t : PTree), anyActive t = true →
    ∃ u, Subtree u t ∧ u.vs.active = true
  | .mk r vs cs, h => by
    rw [anyActive_eq] at h
    rcases Bool.or_eq_true_iff.mp h with hv | hf
    · exact ⟨.mk r vs cs, Subtree.refl _, hv⟩
    · obtain ⟨c, u, hm, hs, ha⟩ := forest_active_of_anyActiveForest cs hf
      exact ⟨u, Subtree.child u c (.mk r vs cs) hm hs, ha⟩

theorem forest_active_of_anyActiveForest : ∀ (f : PForest),
    anyActiveForest f = true →
      ∃ c u, MemF c f ∧ Subtree u c ∧ u.vs.active = true
  | .nil, h => by
    rw [show anyActiveForest .nil = false from rfl] at h
    exact absurd h (by decide)
  | .cons t rest, h => by
    rw [show anyActiveForest (.cons t rest)
      = (anyActive t || anyActiveForest rest) from rfl] at h
    rcases Bool.or_eq_true_iff.mp h with ht | hr
    · obtain ⟨u, hs, ha⟩ := subtree_active_of_anyActive t ht
      exact ⟨t, u, MemF.head t rest, hs, ha⟩
    · obtain ⟨c, u, hm, hs, ha⟩ := forest_active_of_anyActiveForest rest hr
      exact ⟨c, u, MemF.tail c t rest hm, hs, ha⟩
end

/-! ## Claim C5 -/

/-- C5.  After a lifecycle pass, every node of the resulting tree
satisfies the has_active invariant: its has_active flag equals its own
active flag ored with its children's has_active flags, and it reads
true exactly when some node of its subtree (itself included) has the
active flag set.  In particular a single active descendant makes every
strict ancestor read has_active after the pass, and resetting it and
re-running the pass reads false again on every ancestor. -/
theorem has_active_aggregation (t s : PTree)
    (h : Subtree s (lifecyclePass t)) :
    (s.vs.has_active = (s.vs.active || childrenHasActive s.children))
    ∧ (s.vs.has_active = true ↔ ∃ u, Subtree u s ∧ u.vs.active = true) := by
  obtain ⟨t0, _ht0, rfl⟩ := subtree_pass_inv h t rfl
  constructor
  · rw [lifecyclePass_has_active, lifecyclePass_vs_active,
      lifecyclePass_children, childrenHasActive_passMap, anyActive_eq]
  · rw [lifecyclePass_has_active]
    constructor
    · intro ha
      obtain ⟨u, hu, hact⟩ := subtree_active_of_anyActive t0 ha
      refine ⟨lifecyclePass u, subtree_pass_map hu, ?_⟩
      rw [lifecyclePass_vs_active]
      exact hact
    · rintro ⟨u, hu, hact⟩
      obtain ⟨u0, hu0, rfl⟩ := subtree_pass_inv hu t0 rfl
      rw [lifecyclePass_vs_active] at hact
      exact anyActive_of_subtree hu0 hact

/-- Witness for C5: a three-level chain whose leaf is active; after the
pass the root satisfies the invariant and reads has_active true. -/
theorem has_active_aggregation_witness :
    Subtree (lifecyclePass exTreeActive) (lifecyclePass exTreeActive)
    ∧ ((lifecyclePass exTreeActive).vs.has_active
        = ((lifecyclePass exTreeActive).vs.active
            || childrenHasActive (lifecyclePass exTreeActive).children))
    ∧ ((lifecyclePass exTreeActive).vs.has_active = true
        ↔ ∃ u, Subtree u (lifecyclePass exTreeActive) ∧ u.vs.active = true) :=
  ⟨Subtree.refl _,
   (has_active_aggregation exTreeActive (lifecyclePass exTreeActive)
      (Subtree.refl _)).1,
   (has_active_aggregation exTreeActive (lifecyclePass exTreeActive)
      (Subtree.refl _)).2⟩

end Ily
